import Mathlib

/-!
Verification of the LifeGame repository (Conway's Game of Life with a
sequential and a parallel stepping engine).

The definitions below are a shallow embedding of `src/life.rs` (and the
near-identical `src/life_implementation.rs`): machine integers become `Nat`
or `Int`, `Vec` becomes `List`, fallible construction returns `Except`, and
the division-by-zero panic in `ParallelLifeBoard::row_ranges` is modelled by
an `Option` result.  The embedding is pure, so "does not mutate its input"
holds by construction for every operation.
-/

namespace LifeGame

/-- `Cell` from `life.rs`: a value with a boolean liveness flag. -/
structure Cell where
  alive : Bool
deriving DecidableEq, Repr

/-- `LifeBoard` from `life.rs`: a grid stored as a list of columns, together
with the cached `width` (number of columns) and `height` (cells per column). -/
structure LifeBoard where
  grid : List (List Cell)
  width : Nat
  height : Nat
deriving DecidableEq, Repr

/-- `LifeBoardError` from `life_interface.rs` (the `InvalidIndex` variant is
never produced by the code under verification). -/
inductive LifeBoardError where
  | InvalidBoard : String → LifeBoardError
deriving DecidableEq, Repr

/-- The shape invariant established by `LifeBoard::new`: the cached width is
the number of columns, the board is at least 1×1, and every column has
exactly `height` cells. -/
def LifeBoard.Valid (b : LifeBoard) : Prop :=
  b.grid.length = b.width ∧ 1 ≤ b.width ∧ 1 ≤ b.height ∧
    ∀ col ∈ b.grid, col.length = b.height

instance (b : LifeBoard) : Decidable b.Valid := by
  unfold LifeBoard.Valid; infer_instance

/-- `LifeBoard::new` from `life.rs`: validated construction.  The source
matches on `grid.len()` (0 means the empty outer list), then on
`grid[0].len()`, then scans all columns for a length mismatch; the first
violated condition determines the error message. -/
def LifeBoard.new (grid : List (List Cell)) : Except LifeBoardError LifeBoard :=
  match grid with
  | [] => .error (.InvalidBoard "Board must be at least one cell wide.")
  | firstCol :: _ =>
    if firstCol.length = 0 then
      .error (.InvalidBoard "Board must be at least one cell tall.")
    else if grid.all (fun col => col.length = firstCol.length) then
      .ok ⟨grid, grid.length, firstCol.length⟩
    else
      .error (.InvalidBoard "Board must have columns of consistent size.")

/-- `LifeBoard::is_cell_alive` from `life.rs`: negative coordinates return
`none`, otherwise the grid is indexed with `Vec::get` twice, `none` meaning
out of bounds. -/
def LifeBoard.is_cell_alive (b : LifeBoard) (x y : Int) : Option Bool :=
  if x < 0 then none
  else if y < 0 then none
  else match b.grid[x.toNat]? with
    | some col =>
      match col[y.toNat]? with
      | some c => some c.alive
      | none => none
    | none => none

/-- `BaseLifeBoard::_cell_at` from `life_implementation.rs`: same bounds
policy as `is_cell_alive` but returning the cell itself. -/
def LifeBoard.cell_at_opt (b : LifeBoard) (x y : Int) : Option Cell :=
  if x < 0 then none
  else if y < 0 then none
  else match b.grid[x.toNat]? with
    | some col =>
      match col[y.toNat]? with
      | some c => some c
      | none => none
    | none => none

/-- `LifeBoard::get_num_alive_neighbors` from `life.rs`: loops `dx` and `dy`
over `0..3`, skips the centre `(1,1)`, and counts positions whose
`is_cell_alive ((x-1)+dx, (y-1)+dy)` is `some true`. -/
def LifeBoard.get_num_alive_neighbors (b : LifeBoard) (x y : Nat) : Nat :=
  (List.range 3).foldl (fun (acc dx : Nat) =>
    (List.range 3).foldl (fun (acc dy : Nat) =>
      if dx = 1 ∧ dy = 1 then acc
      else if b.is_cell_alive ((x : Int) - 1 + (dx : Int)) ((y : Int) - 1 + (dy : Int)) = some true
        then acc + 1
        else acc) acc) 0

/-- `LifeBoard::next_cell_state` from `life.rs`: the rule-table match on the
neighbour count and the current cell `self.grid[x][y]`.  The source indexes
the grid directly (a panic when out of bounds); all callers stay in bounds,
and out-of-bounds access is modelled by a dead default cell. -/
def LifeBoard.next_cell_state (b : LifeBoard) (x y : Nat) : Cell :=
  let neighbors := b.get_num_alive_neighbors x y
  let old_cell := (b.grid.getD x []).getD y ⟨false⟩
  if (neighbors = 0 ∨ neighbors = 1) ∧ old_cell.alive then ⟨false⟩
  else if (neighbors = 2 ∨ neighbors = 3) ∧ old_cell.alive then ⟨true⟩
  else if (4 ≤ neighbors ∧ neighbors ≤ 8) ∧ old_cell.alive then ⟨false⟩
  else if neighbors = 3 ∧ ¬old_cell.alive then ⟨true⟩
  else ⟨false⟩

/-- The column of next-generation cells at index `row_idx`: the inner
`for col_idx in 0..height` push loop, shared verbatim by
`LifeBoard::simulate` and the worker closure of
`ParallelLifeBoard::simulate`. -/
def computeColumn (board : LifeBoard) (row_idx : Nat) : List Cell :=
  (List.range board.height).map (fun col_idx => board.next_cell_state row_idx col_idx)

/-- `LifeBoard::simulate` from `life.rs`: builds a brand-new grid whose
column `row_idx` holds `next_cell_state row_idx col_idx` for
`col_idx ∈ [0, height)`, keeping `width` and `height`. -/
def LifeBoard.simulate (b : LifeBoard) : LifeBoard :=
  ⟨(List.range b.width).map (fun row_idx => computeColumn b row_idx),
    b.width, b.height⟩

/-- The loop `for _ in 1..steps { board = board.simulate() }` of
`simulate_n_steps`, applying `simulate` the given number of further times. -/
def simLoop : LifeBoard → Nat → LifeBoard
  | board, 0 => board
  | board, k + 1 => simLoop board.simulate k

/-- `LifeBoard::simulate_n_steps` from `life.rs`: 0 steps clones the board;
otherwise one `simulate` followed by `steps - 1` more in a loop. -/
def LifeBoard.simulate_n_steps (b : LifeBoard) (steps : Nat) : LifeBoard :=
  if steps = 0 then ⟨b.grid, b.width, b.height⟩
  else simLoop b.simulate (steps - 1)

/-- The custom `impl PartialEq for LifeBoard` in `life.rs`: folds `&&` over
the column-wise equality of the two grids zipped together. -/
def lifeBoardEq (a b : LifeBoard) : Bool :=
  (a.grid.zip b.grid).foldl (fun all_eq p => all_eq && decide (p.1 = p.2)) true

/-- The `#[derive(PartialEq)]` equality of `BaseLifeBoard` in
`life_implementation.rs`, which has the same three fields as `LifeBoard`:
field-wise structural comparison. -/
def baseLifeBoardEq (a b : LifeBoard) : Bool :=
  decide (a.grid = b.grid) && decide (a.width = b.width) && decide (a.height = b.height)

/-- `ParallelLifeBoard` from `life.rs`: the wrapped board, the worker count,
and the per-worker column ranges (a `Range<usize>` becomes a `Nat × Nat`
half-open pair). -/
structure ParallelLifeBoard where
  board : LifeBoard
  nthreads : Nat
  thread_row_ranges : List (Nat × Nat)
deriving DecidableEq, Repr

/-- The `(1..=nthreads).map` loop body of `ParallelLifeBoard::row_ranges`,
by the number of threads still to serve: the last thread gets
`cur_left_col..width`, every earlier one gets a `slice_size`-wide range. -/
def rowRangesGo (width slice_size : Nat) : Nat → Nat → List (Nat × Nat)
  | 0, _ => []
  | 1, cur_left_col => [(cur_left_col, width)]
  | k + 2, cur_left_col =>
    (cur_left_col, cur_left_col + slice_size) ::
      rowRangesGo width slice_size (k + 1) (cur_left_col + slice_size)

/-- `ParallelLifeBoard::row_ranges` from `life.rs`.  Its first statement is
`let slice_size = width / nthreads;`, which panics in Rust when
`nthreads = 0`; the panic is modelled by `none`. -/
def ParallelLifeBoard.row_ranges (width nthreads : Nat) : Option (List (Nat × Nat)) :=
  if nthreads = 0 then none
  else some (rowRangesGo width (width / nthreads) nthreads 0)

/-- `ParallelLifeBoard::from` from `life.rs` (named `from_board` in
`life_implementation.rs`): stores the board together with the partition plan
computed by `row_ranges` over the board's width. -/
def ParallelLifeBoard.from_board (board : LifeBoard) (nthreads : Nat) :
    Option ParallelLifeBoard :=
  (ParallelLifeBoard.row_ranges board.width nthreads).map
    (fun rs => ⟨board, nthreads, rs⟩)

/-- One worker's contribution to the reassembly: the worker for range `r`
computes `computeColumn` for every `row_idx` in its range (the
`board_slice` push loop of the spawned closure), and the coordinator zips
the received slice with the range and stores each column at its index
(`new_gird[row_idx] = board_col`). -/
def placeSlice (board : LifeBoard) (g : List (List Cell)) (r : Nat × Nat) :
    List (List Cell) :=
  let board_slice := (List.range' r.1 (r.2 - r.1)).map
    (fun row_idx => computeColumn board row_idx)
  (board_slice.zip (List.range' r.1 (r.2 - r.1))).foldl
    (fun g q => g.set q.2 q.1) g

/-- `ParallelLifeBoard::simulate` from `life.rs`.  Worker `thread_idx`
works on `thread_row_ranges[thread_idx]`; the coordinator allocates `width`
empty columns and places every worker's slice.  Message arrival order is
modelled as dispatch order; every write at index `j` stores the same value
`computeColumn board j`, so the reassembled grid does not depend on the
arrival order. -/
def ParallelLifeBoard.simulate (p : ParallelLifeBoard) : ParallelLifeBoard :=
  let init : List (List Cell) := (List.range p.board.width).map (fun _ => [])
  let new_gird := (List.range p.nthreads).foldl (fun g thread_idx =>
      placeSlice p.board g (p.thread_row_ranges.getD thread_idx (0, 0))) init
  ⟨⟨new_gird, p.board.width, p.board.height⟩, p.nthreads, p.thread_row_ranges⟩

/-- `ParallelLifeBoard::simulate_n_steps` from `life.rs`:
`for _ in 0..steps { self.simulate() }`. -/
def ParallelLifeBoard.simulate_n_steps : ParallelLifeBoard → Nat → ParallelLifeBoard
  | p, 0 => p
  | p, k + 1 => ParallelLifeBoard.simulate_n_steps p.simulate k

/-! ### Helper lemmas -/

/-- `simLoop` is iterated `simulate`. -/
lemma simLoop_eq_iter : ∀ (k : Nat) (b : LifeBoard),
    simLoop b k = LifeBoard.simulate^[k] b
  | 0, _ => rfl
  | k + 1, b => by
    rw [simLoop, simLoop_eq_iter k, Function.iterate_succ_apply]

/-- `simulate_n_steps` is iterated `simulate` (shared helper). -/
lemma simulate_n_steps_eq_iter (b : LifeBoard) (k : Nat) :
    b.simulate_n_steps k = LifeBoard.simulate^[k] b := by
  unfold LifeBoard.simulate_n_steps
  cases k with
  | zero => simp
  | succ n => simp [simLoop_eq_iter, Function.iterate_succ_apply]

/-! ### C8 -/

/-- C8: for every grid and every `k ≥ 0`, `simulate_n_steps k` equals the
`k`-fold composition of `simulate`, and `k = 0` leaves the board
unchanged. -/
theorem simulate_n_steps_iterates (b : LifeBoard) (k : Nat) :
    b.simulate_n_steps k = LifeBoard.simulate^[k] b ∧ b.simulate_n_steps 0 = b :=
  ⟨simulate_n_steps_eq_iter b k, rfl⟩

/-! ### C10 -/

/-- C10: `row_ranges` divides `width / nthreads` first, so `nthreads = 0`
reaches the division-by-zero panic (modelled by `none`) for every width,
while `nthreads ≥ 1` always succeeds. -/
theorem row_ranges_zero_threads_panics :
    (∀ width, ParallelLifeBoard.row_ranges width 0 = none) ∧
    (∀ width nthreads, 1 ≤ nthreads →
      (ParallelLifeBoard.row_ranges width nthreads).isSome = true) := by
  refine ⟨fun _ => rfl, fun width nthreads hn => ?_⟩
  simp [ParallelLifeBoard.row_ranges]
  omega

/-- Witness for C10 at `width = 5`. -/
theorem row_ranges_zero_threads_panics_witness :
    ParallelLifeBoard.row_ranges 5 0 = none ∧
      (ParallelLifeBoard.row_ranges 5 3).isSome = true :=
  ⟨row_ranges_zero_threads_panics.1 5,
    row_ranges_zero_threads_panics.2 5 3 (by decide)⟩

/-! ### C6 -/

/-- C6: construction fails exactly on an empty outer list, an empty first
column, or a column whose length differs from the first column's, checked in
that order with the respective messages; every rectangular nonempty input
succeeds and the board carries the supplied width and height. -/
theorem new_board_validation :
    (LifeBoard.new [] =
        .error (.InvalidBoard "Board must be at least one cell wide.")) ∧
    (∀ (firstCol : List Cell) (rest : List (List Cell)), firstCol.length = 0 →
      LifeBoard.new (firstCol :: rest) =
        .error (.InvalidBoard "Board must be at least one cell tall.")) ∧
    (∀ (firstCol : List Cell) (rest : List (List Cell)), firstCol.length ≠ 0 →
      (∃ col ∈ firstCol :: rest, col.length ≠ firstCol.length) →
      LifeBoard.new (firstCol :: rest) =
        .error (.InvalidBoard "Board must have columns of consistent size.")) ∧
    (∀ (firstCol : List Cell) (rest : List (List Cell)), firstCol.length ≠ 0 →
      (∀ col ∈ firstCol :: rest, col.length = firstCol.length) →
      LifeBoard.new (firstCol :: rest) =
        .ok ⟨firstCol :: rest, (firstCol :: rest).length, firstCol.length⟩) := by
  refine ⟨rfl, ?_, ?_, ?_⟩
  · intro firstCol rest h
    simp [LifeBoard.new, h]
  · intro firstCol rest h hjag
    obtain ⟨col, hmem, hne⟩ := hjag
    have : ¬ (firstCol :: rest).all (fun col => col.length = firstCol.length) := by
      simp only [List.all_eq_true, decide_eq_true_eq]
      intro hall
      exact hne (hall col hmem)
    simp [LifeBoard.new, h, this]
  · intro firstCol rest h hrect
    have : (firstCol :: rest).all (fun col => col.length = firstCol.length) := by
      simp only [List.all_eq_true, decide_eq_true_eq]
      exact hrect
    simp [LifeBoard.new, h, this]

/-- Witness for C6: a jagged 2-column input is rejected with the
"consistent size" message. -/
theorem new_board_validation_witness :
    LifeBoard.new [[⟨true⟩, ⟨false⟩], [⟨true⟩]] =
      .error (.InvalidBoard "Board must have columns of consistent size.") :=
  new_board_validation.2.2.1 [⟨true⟩, ⟨false⟩] [[⟨true⟩]] (by decide)
    ⟨[⟨true⟩], by simp⟩

/-! ### C5 -/

/-- On a valid board a column fetched by index has length `height`. -/
lemma col_length_of_valid {b : LifeBoard} (hb : b.Valid) {i : Nat}
    (h : i < b.grid.length) : b.grid[i].length = b.height :=
  hb.2.2.2 _ (b.grid.getElem_mem h)

/-- Shared helper: both cell queries return `none` exactly outside the
board's bounds. -/
lemma cell_query_none_iff (b : LifeBoard) (hb : b.Valid) :
    ∀ x y : Int,
      (b.is_cell_alive x y = none ↔
        ¬(0 ≤ x ∧ x < (b.width : Int) ∧ 0 ≤ y ∧ y < (b.height : Int))) ∧
      (b.cell_at_opt x y = none ↔
        ¬(0 ≤ x ∧ x < (b.width : Int) ∧ 0 ≤ y ∧ y < (b.height : Int))) := by
  obtain ⟨hlen, hw, hh, _⟩ := hb
  intro x y
  by_cases hx0 : x < 0
  · constructor <;>
      simp [LifeBoard.is_cell_alive, LifeBoard.cell_at_opt, hx0]
  by_cases hy0 : y < 0
  · constructor <;>
      simp [LifeBoard.is_cell_alive, LifeBoard.cell_at_opt, hx0, hy0]
  by_cases hxw : x.toNat < b.grid.length
  · have hcol : b.grid[x.toNat]? = some (b.grid[x.toNat]) :=
      List.getElem?_eq_getElem hxw
    have hclen : (b.grid[x.toNat]).length = b.height := col_length_of_valid ⟨hlen, hw, hh, ‹_›⟩ hxw
    by_cases hyh : y.toNat < (b.grid[x.toNat]).length
    · have hcell : (b.grid[x.toNat])[y.toNat]? = some ((b.grid[x.toNat])[y.toNat]) :=
        List.getElem?_eq_getElem hyh
      constructor <;>
        · simp [LifeBoard.is_cell_alive, LifeBoard.cell_at_opt, hx0, hy0, hcol, hcell]
          omega
    · have hcell : (b.grid[x.toNat])[y.toNat]? = none := by
        rw [List.getElem?_eq_none_iff]
        omega
      constructor <;>
        · simp [LifeBoard.is_cell_alive, LifeBoard.cell_at_opt, hx0, hy0, hcol, hcell]
          omega
  · have hcol : b.grid[x.toNat]? = none := by
      rw [List.getElem?_eq_none_iff]
      omega
    constructor <;>
      · simp [LifeBoard.is_cell_alive, LifeBoard.cell_at_opt, hx0, hy0, hcol]
        omega

/-- C5: the out-of-bounds-as-absent policy — `is_cell_alive` (and
`_cell_at`) return `none` exactly outside `[0,width) × [0,height)`, and in
particular at `(-1, 0)` and `(width, 0)`. -/
theorem cell_query_out_of_bounds (b : LifeBoard) (hb : b.Valid) :
    (∀ x y : Int, b.is_cell_alive x y = none ↔
      ¬(0 ≤ x ∧ x < (b.width : Int) ∧ 0 ≤ y ∧ y < (b.height : Int))) ∧
    (∀ x y : Int, b.cell_at_opt x y = none ↔
      ¬(0 ≤ x ∧ x < (b.width : Int) ∧ 0 ≤ y ∧ y < (b.height : Int))) ∧
    b.is_cell_alive (-1) 0 = none ∧ b.is_cell_alive (b.width : Int) 0 = none := by
  refine ⟨fun x y => (cell_query_none_iff b hb x y).1,
    fun x y => (cell_query_none_iff b hb x y).2, ?_, ?_⟩
  · exact (cell_query_none_iff b hb (-1) 0).1.mpr (by omega)
  · exact (cell_query_none_iff b hb (b.width : Int) 0).1.mpr (by omega)

/-- Witness for C5 on a concrete valid 2×1 board. -/
theorem cell_query_out_of_bounds_witness :
    (LifeBoard.mk [[⟨true⟩], [⟨false⟩]] 2 1).is_cell_alive (-1) 0 = none ∧
    (LifeBoard.mk [[⟨true⟩], [⟨false⟩]] 2 1).is_cell_alive 2 0 = none :=
  ⟨(cell_query_out_of_bounds (LifeBoard.mk [[⟨true⟩], [⟨false⟩]] 2 1)
      (by decide)).2.2.1,
    (cell_query_out_of_bounds (LifeBoard.mk [[⟨true⟩], [⟨false⟩]] 2 1)
      (by decide)).2.2.2⟩

/-! ### C2 -/

/-- On a valid board, `is_cell_alive` at in-bounds natural coordinates
returns the liveness of the cell that `next_cell_state` reads. -/
lemma is_cell_alive_in_bounds (b : LifeBoard) (hb : b.Valid) {x y : Nat}
    (hx : x < b.width) (hy : y < b.height) :
    b.is_cell_alive x y = some ((b.grid.getD x []).getD y ⟨false⟩).alive := by
  have hx' : x < b.grid.length := by
    have := hb.1
    omega
  have hclen : (b.grid[x]).length = b.height := col_length_of_valid hb hx'
  have hy' : y < (b.grid[x]).length := by omega
  have hcol : b.grid[x]? = some (b.grid[x]) := List.getElem?_eq_getElem hx'
  have hcell : (b.grid[x])[y]? = some ((b.grid[x])[y]) :=
    List.getElem?_eq_getElem hy'
  simp [LifeBoard.is_cell_alive, hcol, hcell]

/-- C2: at every in-bounds position of a valid board, `next_cell_state`
returns an alive cell iff the cell is alive with 2 or 3 live neighbours, or
dead with exactly 3 live neighbours; every other combination yields a dead
cell. -/
theorem next_cell_state_rule (b : LifeBoard) (hb : b.Valid) (x y : Nat)
    (hx : x < b.width) (hy : y < b.height) :
    (b.next_cell_state x y).alive = true ↔
      ((b.is_cell_alive x y = some true ∧
          (b.get_num_alive_neighbors x y = 2 ∨ b.get_num_alive_neighbors x y = 3)) ∨
        (b.is_cell_alive x y = some false ∧ b.get_num_alive_neighbors x y = 3)) := by
  rw [is_cell_alive_in_bounds b hb hx hy]
  simp only [LifeBoard.next_cell_state]
  cases hA : ((b.grid.getD x []).getD y (⟨false⟩ : Cell)).alive <;>
    split_ifs <;> simp_all <;> omega

/-- Witness for C2 on the 3×3 board of the repository's tests: the dead
cell at `(1, 2)` has exactly 3 live neighbours and becomes alive. -/
theorem next_cell_state_rule_witness :
    ((LifeBoard.mk
        [[⟨true⟩, ⟨true⟩, ⟨true⟩], [⟨false⟩, ⟨true⟩, ⟨false⟩],
          [⟨true⟩, ⟨false⟩, ⟨false⟩]] 3 3).next_cell_state 1 2).alive = true := by
  have h := next_cell_state_rule
    (LifeBoard.mk
      [[⟨true⟩, ⟨true⟩, ⟨true⟩], [⟨false⟩, ⟨true⟩, ⟨false⟩],
        [⟨true⟩, ⟨false⟩, ⟨false⟩]] 3 3)
    (by decide) 1 2 (by decide) (by decide)
  exact h.mpr (by decide)

/-! ### C7 -/

/-- The 8 Moore-neighbourhood positions around `(x, y)` (orthogonal and
diagonal, excluding the centre), in the order the source loop visits
them. -/
def mooreNeighbors (x y : Nat) : List (Int × Int) :=
  [((x : Int) - 1, (y : Int) - 1), ((x : Int) - 1, (y : Int)),
    ((x : Int) - 1, (y : Int) + 1),
    ((x : Int), (y : Int) - 1), ((x : Int), (y : Int) + 1),
    ((x : Int) + 1, (y : Int) - 1), ((x : Int) + 1, (y : Int)),
    ((x : Int) + 1, (y : Int) + 1)]

/-- A position's liveness with an absent (off-grid) position treated as
dead. -/
def liveAt (b : LifeBoard) (p : Int × Int) : Bool :=
  (b.is_cell_alive p.1 p.2).getD false

lemma getD_false_eq_true_iff (o : Option Bool) :
    (o.getD false = true) ↔ (o = some true) := by
  cases o <;> simp

/-- A fold that skips positions satisfying `p` and counts positions
satisfying `q` computes a `countP`. -/
lemma foldl_skip_count (p q : Nat → Prop) [DecidablePred p] [DecidablePred q] :
    ∀ (l : List Nat) (acc : Nat),
      l.foldl (fun a d => if p d then a else if q d then a + 1 else a) acc
        = acc + l.countP (fun d => decide (¬ p d ∧ q d)) := by
  intro l
  induction l with
  | nil => intro acc; simp
  | cons d t ih =>
    intro acc
    simp only [List.foldl_cons, List.countP_cons, ih]
    by_cases hp : p d <;> by_cases hq : q d <;> simp [hp, hq] <;> omega

/-- The loop of `get_num_alive_neighbors` counts exactly the live
Moore-neighbourhood positions (shared helper). -/
lemma get_num_alive_neighbors_eq_countP (b : LifeBoard) (x y : Nat) :
    b.get_num_alive_neighbors x y = (mooreNeighbors x y).countP (liveAt b) := by
  have h2 : ∀ z : Int, z - 1 + 2 = z + 1 := fun z => by ring
  have h1 : ∀ z : Int, z - 1 + 1 = z := fun z => by ring
  have hr : List.range 3 = [0, 1, 2] := rfl
  have houter : ∀ (acc dx : Nat),
      (List.range 3).foldl (fun (a dy : Nat) =>
        if dx = 1 ∧ dy = 1 then a
        else if b.is_cell_alive ((x : Int) - 1 + (dx : Int)) ((y : Int) - 1 + (dy : Int)) = some true
          then a + 1 else a) acc
        = acc + (List.range 3).countP (fun (dy : Nat) => decide (¬ (dx = 1 ∧ dy = 1) ∧
            b.is_cell_alive ((x : Int) - 1 + (dx : Int)) ((y : Int) - 1 + (dy : Int)) = some true)) :=
    fun acc dx => foldl_skip_count (fun dy => dx = 1 ∧ dy = 1)
      (fun dy => b.is_cell_alive ((x : Int) - 1 + (dx : Int)) ((y : Int) - 1 + (dy : Int)) = some true)
      (List.range 3) acc
  simp only [LifeBoard.get_num_alive_neighbors, houter]
  simp only [hr, List.foldl_cons, List.foldl_nil, List.countP_cons,
    List.countP_nil, mooreNeighbors, liveAt, getD_false_eq_true_iff,
    Nat.cast_zero, Nat.cast_one, Nat.cast_ofNat, add_zero, h1, h2,
    decide_eq_true_eq]
  norm_num [h1, h2]
  omega

/-- C7: on a valid board, `get_num_alive_neighbors` at an in-bounds
position is at most 8 and equals the number of live cells among the 8
Moore-neighbourhood positions (absent positions counting as dead, no
wraparound); on a 1×1 board the only cell has 0 neighbours. -/
theorem num_alive_neighbors_correct (b : LifeBoard) (hb : b.Valid)
    (x y : Nat) (hx : x < b.width) (hy : y < b.height) :
    b.get_num_alive_neighbors x y ≤ 8 ∧
    b.get_num_alive_neighbors x y = (mooreNeighbors x y).countP (liveAt b) ∧
    (b.width = 1 → b.height = 1 → b.get_num_alive_neighbors 0 0 = 0) := by
  refine ⟨?_, get_num_alive_neighbors_eq_countP b x y, ?_⟩
  · calc b.get_num_alive_neighbors x y
        = (mooreNeighbors x y).countP (liveAt b) :=
          get_num_alive_neighbors_eq_countP b x y
      _ ≤ (mooreNeighbors x y).length := List.countP_le_length _
      _ = 8 := rfl
  · intro hw1 hh1
    rw [get_num_alive_neighbors_eq_countP b 0 0]
    rw [List.countP_eq_zero]
    intro p hp
    have hnone : ∀ u v : Int,
        ¬(0 ≤ u ∧ u < (b.width : Int) ∧ 0 ≤ v ∧ v < (b.height : Int)) →
        liveAt b (u, v) = false := by
      intro u v h
      have := ((cell_query_none_iff b hb u v).1).mpr h
      simp [liveAt, this]
    simp only [mooreNeighbors, Nat.cast_zero, List.mem_cons,
      List.not_mem_nil, or_false] at hp
    rcases hp with rfl | rfl | rfl | rfl | rfl | rfl | rfl | rfl <;>
      · rw [Bool.not_eq_true]
        exact hnone _ _ (by omega)

/-- Witness for C7 on the all-alive 3×3 board of the repository's tests:
the centre cell has 8 live neighbours. -/
theorem num_alive_neighbors_correct_witness :
    (LifeBoard.mk
        [[⟨true⟩, ⟨true⟩, ⟨true⟩], [⟨true⟩, ⟨false⟩, ⟨true⟩],
          [⟨true⟩, ⟨true⟩, ⟨true⟩]] 3 3).get_num_alive_neighbors 1 1 ≤ 8 :=
  (num_alive_neighbors_correct
    (LifeBoard.mk
      [[⟨true⟩, ⟨true⟩, ⟨true⟩], [⟨true⟩, ⟨false⟩, ⟨true⟩],
        [⟨true⟩, ⟨true⟩, ⟨true⟩]] 3 3)
    (by decide) 1 1 (by decide) (by decide)).1

/-! ### C4 -/

/-- C4: `simulate` produces a board of the same width and height whose cell
at every in-bounds `(x, y)` is `next_cell_state` of the input board at
`(x, y)`; the input board is untouched (the embedding is pure, and
`simulate` builds its grid from a fresh allocation). -/
theorem simulate_postcondition (b : LifeBoard) (hb : b.Valid) :
    (b.simulate).width = b.width ∧ (b.simulate).height = b.height ∧
    ∀ x y : Nat, x < b.width → y < b.height →
      (b.simulate).is_cell_alive x y = some ((b.next_cell_state x y).alive) := by
  refine ⟨rfl, rfl, fun x y hx hy => ?_⟩
  have hcol : (b.simulate).grid[x]? = some (computeColumn b x) := by
    simp [LifeBoard.simulate, List.getElem?_map, List.getElem?_range hx]
  have hcell : (computeColumn b x)[y]? = some (b.next_cell_state x y) := by
    simp [computeColumn, List.getElem?_map, List.getElem?_range hy]
  simp [LifeBoard.is_cell_alive, hcol, hcell]

/-- Witness for C4 on the 3×3 board of the repository's tests. -/
theorem simulate_postcondition_witness :
    ((LifeBoard.mk
        [[⟨true⟩, ⟨true⟩, ⟨true⟩], [⟨false⟩, ⟨true⟩, ⟨false⟩],
          [⟨true⟩, ⟨false⟩, ⟨false⟩]] 3 3).simulate).width = 3 :=
  (simulate_postcondition
    (LifeBoard.mk
      [[⟨true⟩, ⟨true⟩, ⟨true⟩], [⟨false⟩, ⟨true⟩, ⟨false⟩],
        [⟨true⟩, ⟨false⟩, ⟨false⟩]] 3 3) (by decide)).1

/-! ### C9 -/

lemma foldl_and_eq (q : List Cell × List Cell → Bool) :
    ∀ (l : List (List Cell × List Cell)) (acc : Bool),
      l.foldl (fun all_eq p => all_eq && q p) acc = (acc && l.all q) := by
  intro l
  induction l with
  | nil => intro acc; simp
  | cons p t ih => intro acc; simp [List.foldl_cons, ih, Bool.and_assoc]

lemma zip_self_append_all (t : List (List Cell)) :
    ∀ l : List (List Cell),
      (l.zip (l ++ t)).all (fun p => decide (p.1 = p.2)) = true := by
  intro l
  induction l with
  | nil => simp
  | cons c l ih => simpa using ih

lemma append_zip_self_all (t : List (List Cell)) :
    ∀ l : List (List Cell),
      ((l ++ t).zip l).all (fun p => decide (p.1 = p.2)) = true := by
  intro l
  induction l with
  | nil => simp
  | cons c l ih => simpa using ih

/-- Concrete one-column board used to exhibit C9. -/
def narrowBoard : LifeBoard := ⟨[[⟨true⟩]], 1, 1⟩

/-- Concrete two-column board extending `narrowBoard` by one column. -/
def wideBoard : LifeBoard := ⟨[[⟨true⟩], [⟨false⟩]], 2, 1⟩

/-- C9: the custom `PartialEq` of `LifeBoard` zips the two column lists, so
whenever one board's column list is a prefix of the other's it reports
equality — in particular on two boards of different widths — while the
derived field-wise `PartialEq` of `BaseLifeBoard` distinguishes them. -/
theorem life_board_eq_prefix_tolerant :
    (∀ a b : LifeBoard,
      (∃ t, b.grid = a.grid ++ t) ∨ (∃ t, a.grid = b.grid ++ t) →
      lifeBoardEq a b = true) ∧
    lifeBoardEq narrowBoard wideBoard = true ∧
    narrowBoard.width ≠ wideBoard.width ∧
    baseLifeBoardEq narrowBoard wideBoard = false := by
  refine ⟨fun a b h => ?_, by decide, by decide, by decide⟩
  rcases h with ⟨t, ht⟩ | ⟨t, ht⟩ <;>
    rw [lifeBoardEq, foldl_and_eq, Bool.true_and, ht]
  · exact zip_self_append_all t a.grid
  · exact append_zip_self_all t b.grid

/-- Witness for C9: the prefix case applied to the two concrete boards. -/
theorem life_board_eq_prefix_tolerant_witness :
    lifeBoardEq narrowBoard wideBoard = true :=
  life_board_eq_prefix_tolerant.1 narrowBoard wideBoard
    (Or.inl ⟨[[⟨false⟩]], rfl⟩)

/-! ### C3 -/

/-- Counting lemma for the range loop: starting `k + 1` threads at column
`cur` with `cur + k * s ≤ width` yields ranges that contain each
`j ∈ [cur, width)` exactly once and no other index. -/
lemma rowRangesGo_countP (width s : Nat) :
    ∀ (k cur : Nat), cur + k * s ≤ width →
      ∀ j, (rowRangesGo width s (k + 1) cur).countP
          (fun r => decide (r.1 ≤ j ∧ j < r.2)) =
        if cur ≤ j ∧ j < width then 1 else 0 := by
  intro k
  induction k with
  | zero =>
    intro cur _ j
    simp only [rowRangesGo, List.countP_cons, List.countP_nil,
      decide_eq_true_eq]
    split_ifs <;> omega
  | succ k ih =>
    intro cur hcur j
    have hmul : (k + 1) * s = k * s + s := by ring
    have htail := ih (cur + s) (by omega) j
    show ((cur, cur + s) :: rowRangesGo width s (k + 1) (cur + s)).countP
        (fun r => decide (r.1 ≤ j ∧ j < r.2)) = _
    rw [List.countP_cons, htail]
    have hsw : cur + s ≤ width := by omega
    simp only [decide_eq_true_eq]
    split_ifs <;> omega

/-- C3: for every `width ≥ 1` and `nthreads ≥ 1`, the ranges returned by
`row_ranges` contain every column index `j < width` exactly once and no
index `j ≥ width` — a perfect partition of `[0, width)` with no gaps,
overlaps, or dropped indices, including when `nthreads > width`. -/
theorem row_ranges_exact_partition (width nthreads : Nat)
    (hw : 1 ≤ width) (hn : 1 ≤ nthreads) (rs : List (Nat × Nat))
    (h : ParallelLifeBoard.row_ranges width nthreads = some rs) :
    ∀ j, rs.countP (fun r => decide (r.1 ≤ j ∧ j < r.2)) =
      if j < width then 1 else 0 := by
  intro j
  obtain ⟨k, rfl⟩ : ∃ k, nthreads = k + 1 := ⟨nthreads - 1, by omega⟩
  have hne : k + 1 ≠ 0 := by omega
  rw [ParallelLifeBoard.row_ranges, if_neg hne] at h
  obtain rfl : rowRangesGo width (width / (k + 1)) (k + 1) 0 = rs :=
    Option.some_injective _ h
  have hq : k * (width / (k + 1)) ≤ width := by
    calc k * (width / (k + 1)) ≤ (k + 1) * (width / (k + 1)) :=
          Nat.mul_le_mul_right _ (by omega)
      _ = width / (k + 1) * (k + 1) := Nat.mul_comm _ _
      _ ≤ width := Nat.div_mul_le_self _ _
  have := rowRangesGo_countP width (width / (k + 1)) k 0 (by omega) j
  rw [this]
  simp

/-- Witness for C3 at `width = 3`, `nthreads = 2`: column 1 lies in exactly
one range. -/
theorem row_ranges_exact_partition_witness :
    ([(0, 1), (1, 3)] : List (Nat × Nat)).countP
        (fun r => decide (r.1 ≤ 1 ∧ 1 < r.2)) = if 1 < 3 then 1 else 0 :=
  row_ranges_exact_partition 3 2 (by decide) (by decide) [(0, 1), (1, 3)] rfl 1

/-! ### C1 -/

/-- The length of the partition list equals the thread count. -/
lemma rowRangesGo_length (w s : Nat) :
    ∀ (m cur : Nat), (rowRangesGo w s m cur).length = m
  | 0, _ => rfl
  | 1, _ => rfl
  | k + 2, cur => by
    rw [rowRangesGo, List.length_cons, rowRangesGo_length w s (k + 1)]

/-- `row_ranges` restated without the option layer (shared helper): each
column index below `width` lies in exactly one range, every other index in
none. -/
lemma row_ranges_countP (width nthreads : Nat) (hn : 1 ≤ nthreads)
    (rs : List (Nat × Nat))
    (h : ParallelLifeBoard.row_ranges width nthreads = some rs) :
    ∀ j, rs.countP (fun r => decide (r.1 ≤ j ∧ j < r.2)) =
      if j < width then 1 else 0 := by
  intro j
  obtain ⟨k, rfl⟩ : ∃ k, nthreads = k + 1 := ⟨nthreads - 1, by omega⟩
  have hne : k + 1 ≠ 0 := by omega
  rw [ParallelLifeBoard.row_ranges, if_neg hne] at h
  obtain rfl : rowRangesGo width (width / (k + 1)) (k + 1) 0 = rs :=
    Option.some_injective _ h
  have hq : k * (width / (k + 1)) ≤ width := by
    calc k * (width / (k + 1)) ≤ (k + 1) * (width / (k + 1)) :=
          Nat.mul_le_mul_right _ (by omega)
      _ = width / (k + 1) * (k + 1) := Nat.mul_comm _ _
      _ ≤ width := Nat.div_mul_le_self _ _
  have := rowRangesGo_countP width (width / (k + 1)) k 0 (by omega) j
  rw [this]
  simp

/-- Entries after folding the writes `g[i] := f i` over a list of
indices. -/
lemma foldl_set_getElem (f : Nat → List Cell) :
    ∀ (l : List Nat) (g : List (List Cell)) (j : Nat),
      (l.foldl (fun g i => g.set i (f i)) g)[j]? =
        if j ∈ l ∧ j < g.length then some (f j) else g[j]? := by
  intro l
  induction l with
  | nil => intro g j; simp
  | cons i t ih =>
    intro g j
    rw [List.foldl_cons, ih, List.length_set, List.getElem?_set]
    by_cases h3 : j < g.length
    · by_cases h1 : j ∈ t
      · rw [if_pos ⟨h1, h3⟩, if_pos ⟨List.mem_cons_of_mem i h1, h3⟩]
      · rw [if_neg (fun h => h1 h.1)]
        by_cases h2 : i = j
        · subst h2
          rw [if_pos rfl, if_pos h3, if_pos ⟨List.mem_cons_self i t, h3⟩]
        · rw [if_neg h2,
            if_neg (fun h => (List.mem_cons.mp h.1).elim (fun e => h2 e.symm) h1)]
    · have hcond1 : ¬(j ∈ t ∧ j < g.length) := fun h => h3 h.2
      have hcond2 : ¬(j ∈ i :: t ∧ j < g.length) := fun h => h3 h.2
      rw [if_neg hcond1, if_neg hcond2]
      by_cases h2 : i = j
      · subst h2
        rw [if_pos rfl, if_neg h3, List.getElem?_eq_none (by omega)]
      · rw [if_neg h2]

/-- Folding index writes preserves the length of the column array. -/
lemma foldl_set_length (f : Nat → List Cell) :
    ∀ (l : List Nat) (g : List (List Cell)),
      (l.foldl (fun g i => g.set i (f i)) g).length = g.length := by
  intro l
  induction l with
  | nil => intro g; rfl
  | cons i t ih => intro g; rw [List.foldl_cons, ih, List.length_set]

/-- Zipping a mapped list with its index list and folding the writes is
the plain indexed-write fold. -/
lemma zip_map_self_foldl (f : Nat → List Cell) :
    ∀ (l : List Nat) (g : List (List Cell)),
      (((l.map f).zip l).foldl (fun g q => g.set q.2 q.1) g)
        = l.foldl (fun g i => g.set i (f i)) g := by
  intro l
  induction l with
  | nil => intro g; rfl
  | cons i t ih =>
    intro g
    rw [List.map_cons, List.zip_cons_cons, List.foldl_cons, List.foldl_cons, ih]

/-- `placeSlice` is the indexed-write fold over the slice's range. -/
lemma placeSlice_eq_fold (b : LifeBoard) (g : List (List Cell)) (r : Nat × Nat) :
    placeSlice b g r = (List.range' r.1 (r.2 - r.1)).foldl
      (fun g i => g.set i (computeColumn b i)) g :=
  zip_map_self_foldl (computeColumn b) (List.range' r.1 (r.2 - r.1)) g

/-- Entries of the grid after the coordinator has placed every slice: any
index covered by some range holds its freshly computed column, all other
entries are untouched. -/
lemma place_all_getElem (b : LifeBoard) :
    ∀ (rs : List (Nat × Nat)) (g : List (List Cell)) (j : Nat),
      (rs.foldl (fun g r => placeSlice b g r) g)[j]? =
        if (∃ r ∈ rs, r.1 ≤ j ∧ j < r.2) ∧ j < g.length
          then some (computeColumn b j) else g[j]? := by
  intro rs
  induction rs with
  | nil => intro g j; simp
  | cons r t ih =>
    intro g j
    rw [List.foldl_cons, ih, placeSlice_eq_fold, foldl_set_length,
      foldl_set_getElem]
    by_cases h3 : j < g.length
    · by_cases h2 : r.1 ≤ j ∧ j < r.2
      · have hmem : j ∈ List.range' r.1 (r.2 - r.1) :=
          List.mem_range'_1.mpr ⟨h2.1, by omega⟩
        have hcons : (∃ x ∈ r :: t, x.1 ≤ j ∧ j < x.2) ∧ j < g.length :=
          ⟨⟨r, List.mem_cons_self r t, h2⟩, h3⟩
        by_cases h1 : ∃ x ∈ t, x.1 ≤ j ∧ j < x.2
        · rw [if_pos ⟨h1, h3⟩, if_pos hcons]
        · rw [if_neg (fun h => h1 h.1), if_pos ⟨hmem, h3⟩, if_pos hcons]
      · have hnmem : j ∉ List.range' r.1 (r.2 - r.1) := by
          rw [List.mem_range'_1]
          omega
        by_cases h1 : ∃ x ∈ t, x.1 ≤ j ∧ j < x.2
        · obtain ⟨x, hx, hcx⟩ := h1
          rw [if_pos ⟨⟨x, hx, hcx⟩, h3⟩,
            if_pos ⟨⟨x, List.mem_cons_of_mem r hx, hcx⟩, h3⟩]
        · rw [if_neg (fun h => h1 h.1), if_neg (fun h => hnmem h.1)]
          rw [if_neg ?_]
          rintro ⟨⟨x, hx, hcx⟩, -⟩
          rcases List.mem_cons.mp hx with rfl | hx
          · exact h2 hcx
          · exact h1 ⟨x, hx, hcx⟩
    · rw [if_neg (fun h => h3 h.2), if_neg (fun h => h3 h.2),
        if_neg (fun h => h3 h.2)]

/-- Placing every slice keeps the length of the column array. -/
lemma place_all_length (b : LifeBoard) :
    ∀ (rs : List (Nat × Nat)) (g : List (List Cell)),
      (rs.foldl (fun g r => placeSlice b g r) g).length = g.length := by
  intro rs
  induction rs with
  | nil => intro g; rfl
  | cons r t ih =>
    intro g
    rw [List.foldl_cons, ih, placeSlice_eq_fold, foldl_set_length]

/-- The `for thread_idx in 0..nthreads` loop with
`thread_row_ranges[thread_idx]` lookups is the fold over the range list
itself. -/
lemma foldl_index_getD (step : List (List Cell) → (Nat × Nat) → List (List Cell)) :
    ∀ (l : List (Nat × Nat)) (g : List (List Cell)),
      (List.range l.length).foldl (fun g t => step g (l.getD t (0, 0))) g
        = l.foldl step g := by
  intro l
  induction l with
  | nil => intro g; rfl
  | cons r t ih =>
    intro g
    rw [List.length_cons, List.range_succ_eq_map, List.foldl_cons,
      List.foldl_map]
    simp only [Nat.succ_eq_add_one, List.getD_cons_succ, List.getD_cons_zero]
    exact ih (step g r)

/-- One parallel step produces exactly the sequential step of the wrapped
board, provided the stored ranges are one per thread and cover the
width. -/
lemma parallel_simulate_board (p : ParallelLifeBoard)
    (hlen : p.thread_row_ranges.length = p.nthreads)
    (hcov : ∀ j, j < p.board.width →
      ∃ r ∈ p.thread_row_ranges, r.1 ≤ j ∧ j < r.2) :
    p.simulate.board = p.board.simulate := by
  have hA : p.simulate.board = LifeBoard.mk
      ((List.range p.nthreads).foldl (fun g thread_idx =>
          placeSlice p.board g (p.thread_row_ranges.getD thread_idx (0, 0)))
        ((List.range p.board.width).map (fun _ => [])))
      p.board.width p.board.height := rfl
  have hB : p.board.simulate = LifeBoard.mk
      ((List.range p.board.width).map (fun row_idx => computeColumn p.board row_idx))
      p.board.width p.board.height := rfl
  rw [hA, hB, ← hlen, foldl_index_getD (fun g r => placeSlice p.board g r)]
  have hgrid : (p.thread_row_ranges.foldl (fun g r => placeSlice p.board g r)
      ((List.range p.board.width).map (fun _ => [])))
      = (List.range p.board.width).map (fun row_idx => computeColumn p.board row_idx) := by
    apply List.ext_getElem?
    intro j
    rw [place_all_getElem]
    simp only [List.length_map, List.length_range, List.getElem?_map]
    by_cases hj : j < p.board.width
    · rw [if_pos ⟨hcov j hj, hj⟩, List.getElem?_range hj]
      rfl
    · rw [if_neg (fun h => hj h.2),
        List.getElem?_eq_none (by simpa using by omega)]
      rfl
  rw [hgrid]

/-- Iterating the parallel step from any wrapped board of the plan's width
agrees with iterating the sequential step. -/
lemma par_iter_eq (n w : Nat) (rs : List (Nat × Nat)) (hlen : rs.length = n)
    (hcov : ∀ j, j < w → ∃ r ∈ rs, r.1 ≤ j ∧ j < r.2) :
    ∀ (k : Nat) (c : LifeBoard), c.width = w →
      (ParallelLifeBoard.simulate_n_steps ⟨c, n, rs⟩ k).board
        = LifeBoard.simulate^[k] c := by
  intro k
  induction k with
  | zero => intro c hc; rfl
  | succ k ih =>
    intro c hc
    have hboard : (⟨c, n, rs⟩ : ParallelLifeBoard).simulate
        = ⟨c.simulate, n, rs⟩ := by
      have step := parallel_simulate_board ⟨c, n, rs⟩ hlen
        (by simpa [hc] using hcov)
      have hshape : (⟨c, n, rs⟩ : ParallelLifeBoard).simulate
          = ⟨(⟨c, n, rs⟩ : ParallelLifeBoard).simulate.board, n, rs⟩ := rfl
      rw [hshape, step]
    rw [ParallelLifeBoard.simulate_n_steps, hboard,
      ih c.simulate hc, Function.iterate_succ_apply]

/-- C1: for every valid starting board, every worker count `nthreads ≥ 1`
(including `nthreads > width`), and every step count `k`, the parallel
engine advanced `k` steps holds exactly the grid the sequential engine
produces after `k` steps — and since `k` is universally quantified, the
grids agree at every intermediate step as well. -/
theorem parallel_sequential_equiv (b : LifeBoard) (nthreads k : Nat)
    (hb : b.Valid) (hn : 1 ≤ nthreads) (p : ParallelLifeBoard)
    (hp : ParallelLifeBoard.from_board b nthreads = some p) :
    (p.simulate_n_steps k).board = b.simulate_n_steps k := by
  obtain ⟨rs, hrs, rfl⟩ : ∃ rs,
      ParallelLifeBoard.row_ranges b.width nthreads = some rs ∧
        p = ⟨b, nthreads, rs⟩ := by
    unfold ParallelLifeBoard.from_board at hp
    cases hrr : ParallelLifeBoard.row_ranges b.width nthreads with
    | none => rw [hrr] at hp; simp at hp
    | some rs =>
      rw [hrr] at hp
      have hp2 : (⟨b, nthreads, rs⟩ : ParallelLifeBoard) = p :=
        Option.some_injective _ hp
      exact ⟨rs, rfl, hp2.symm⟩
  have hlen : rs.length = nthreads := by
    obtain ⟨k, rfl⟩ : ∃ m, nthreads = m + 1 := ⟨nthreads - 1, by omega⟩
    rw [ParallelLifeBoard.row_ranges, if_neg (by omega)] at hrs
    obtain rfl : rowRangesGo b.width (b.width / (k + 1)) (k + 1) 0 = rs :=
      Option.some_injective _ hrs
    exact rowRangesGo_length _ _ _ _
  have hcov : ∀ j, j < b.width → ∃ r ∈ rs, r.1 ≤ j ∧ j < r.2 := by
    intro j hj
    have hcount := row_ranges_countP b.width nthreads hn rs hrs j
    rw [if_pos hj] at hcount
    have hpos : 0 < rs.countP (fun r => decide (r.1 ≤ j ∧ j < r.2)) := by omega
    obtain ⟨r, hr, hpr⟩ := List.countP_pos.mp hpos
    exact ⟨r, hr, of_decide_eq_true hpr⟩
  rw [simulate_n_steps_eq_iter]
  exact par_iter_eq nthreads b.width rs hlen hcov k b rfl

/-- Concrete 2×2 board used by the C1 witness. -/
def twoBoard : LifeBoard := ⟨[[⟨true⟩, ⟨false⟩], [⟨false⟩, ⟨true⟩]], 2, 2⟩

/-- Witness for C1 at `width = 2`, `nthreads = 3` (more workers than
columns), `k = 2`. -/
theorem parallel_sequential_equiv_witness :
    (ParallelLifeBoard.simulate_n_steps
        ⟨twoBoard, 3, [(0, 0), (0, 0), (0, 2)]⟩ 2).board
      = twoBoard.simulate_n_steps 2 :=
  parallel_sequential_equiv twoBoard 3 2 (by decide) (by decide)
    ⟨twoBoard, 3, [(0, 0), (0, 0), (0, 2)]⟩ rfl

end LifeGame
